import Mathlib

/-!
Shallow embedding of the vital-signs data-processing core
(`src-tauri/src/data_processor.rs`, `src-tauri/src/types.rs`,
`src-tauri/src/serial_reader.rs`).

Conventions of the embedding:
* Rust `f64` values are modelled as exact rationals (`ℚ`).  The only `f64`
  values that are not finite in this code are the sentinel initializations
  `f64::INFINITY` / `f64::NEG_INFINITY`; those fields are modelled as
  `Option ℚ`, with `none` standing for the infinite sentinel (the comment at
  each field says which infinity).  All arithmetic the code performs on a
  possibly-infinite field is spelled out case by case, following IEEE-754
  semantics for the operations actually executed.
* Rust `i32` sample values are `ℤ`; `usize`/`u32`/`u64` counters are `ℕ`.
* `Vec` and `VecDeque` are `List` (front of the deque = head of the list).
* Slice indexing `data[i]` is the `Option`-returning `l[i]?`; loops that
  index are written as fuel-structured recursions returning `Option`, so an
  out-of-bounds access surfaces as `none`.
-/

/-- LTTB data point (`types.rs`, struct `LttbDataPoint`): `x` is the
timestamp, `y` the normalized ECG value. -/
structure LttbDataPoint where
  x : ℚ
  y : ℚ
deriving DecidableEq

/-- Temperature processing state (`types.rs`, struct
`TemperatureProcessingState`). -/
structure TemperatureProcessingState where
  temperatures : List ℚ
  scale_factor : ℚ
  offset : ℚ
  max_temp : ℚ
  room_temperature : ℚ
deriving DecidableEq

/-- Initial temperature state built by `DataProcessor::new`:
`scale_factor = 0.8`, `offset = 0.0`, `max_temp = 37.2`,
`room_temperature = 23.2`, empty buffer. -/
def initTempState : TemperatureProcessingState :=
  { temperatures := [], scale_factor := 4/5, offset := 0,
    max_temp := 186/5, room_temperature := 116/5 }

/-- The calibration applied at the top of `process_body_temperature`:
`(raw_temp as f64 / 10.0) * scale_factor + offset`. -/
def calibTemp (s : TemperatureProcessingState) (raw_temp : ℤ) : ℚ :=
  (raw_temp : ℚ) / 10 * s.scale_factor + s.offset

/-- Insertion of one element into a sorted list of rationals; building block
of `insertionSort`. -/
def sortedInsert (x : ℚ) : List ℚ → List ℚ
  | [] => [x]
  | y :: ys => if x ≤ y then x :: y :: ys else y :: sortedInsert x ys

/-- Sorting a list of rationals in nondecreasing order.  Stands for the
source's `sorted_temps.sort_by(|a, b| a.partial_cmp(b).unwrap())`: on
rationals (a total order, and equal elements are indistinguishable values)
every correct sort produces this same list. -/
def insertionSort : List ℚ → List ℚ
  | [] => []
  | x :: xs => sortedInsert x (insertionSort xs)

/-- One call of `DataProcessor::process_body_temperature`.  Returns the
emitted temperature and the updated state. -/
def process_body_temperature (raw_temp : ℤ) (s : TemperatureProcessingState) :
    ℚ × TemperatureProcessingState :=
  let temp_value := (raw_temp : ℚ) / 10 * s.scale_factor + s.offset
  -- sensor-fault substitution
  let adjusted_temp := if temp_value < s.room_temperature - 10
    then s.room_temperature else temp_value
  -- push, then keep the sliding window at 70 (`remove(0)` drops the front)
  let temps1 := s.temperatures ++ [adjusted_temp]
  let temps2 := if temps1.length > 70 then temps1.drop 1 else temps1
  if temps2.length = 70 then
    let sorted_temps := insertionSort temps2
    if sorted_temps.length ≥ 20 then
      -- `&sorted_temps[10..len-10]`
      let trimmed_temps := (sorted_temps.drop 10).take (sorted_temps.length - 20)
      let average_temp := trimmed_temps.sum / (trimmed_temps.length : ℚ)
      if average_temp > s.max_temp then (s.max_temp, { s with temperatures := [] })
      else (average_temp, { s with temperatures := [] })
    else (adjusted_temp, { s with temperatures := temps2 })
  else (adjusted_temp, { s with temperatures := temps2 })

/-- Folding `process_body_temperature` over a list of raw samples, returning
the list of emitted temperatures and the final state. -/
def tempRun (s : TemperatureProcessingState) :
    List ℤ → List ℚ × TemperatureProcessingState
  | [] => ([], s)
  | r :: rest =>
    let one := process_body_temperature r s
    let more := tempRun one.2 rest
    (one.1 :: more.1, more.2)

/-- `DataProcessor::process_blood_oxygen`: values below 1 are invalid. -/
def process_blood_oxygen (raw_spo2 : ℤ) : ℤ :=
  if raw_spo2 < 1 then 0 else raw_spo2

/-- ECG processing state (`types.rs`, struct `EcgProcessingState`).
`ecg_point_max` is initialized to `f64::NEG_INFINITY` in the source, so it
is `Option ℚ` with `none` = `-∞`; `ecg_point_min` and `ecg_point_min_new`
are initialized to `f64::INFINITY`, so for them `none` = `+∞`.
`ecg_point_max_new` starts at `0.0` and is only ever replaced by finite
sample values, so it is a plain `ℚ`. -/
structure EcgProcessingState where
  ecg_point_max : Option ℚ
  ecg_point_min : Option ℚ
  ecg_point_max_new : ℚ
  ecg_point_min_new : Option ℚ
  ecg_points : List ℤ
  peak_interval_num : ℕ
  counter : ℕ
  ecg_data_original_list : List ℤ
  last_heart_rate : ℚ
  last_rr_interval : ℚ
deriving DecidableEq

/-- Initial ECG state built by `DataProcessor::new`. -/
def initEcgState : EcgProcessingState :=
  { ecg_point_max := none, ecg_point_min := none,
    ecg_point_max_new := 0, ecg_point_min_new := none,
    ecg_points := [], peak_interval_num := 0, counter := 0,
    ecg_data_original_list := [],
    last_heart_rate := 0, last_rr_interval := 0 }

/-- `if ecg_value_f64 < state.ecg_point_min_new { ... = ecg_value_f64 }`
with `none` standing for the `+∞` start value (any finite value is below
`+∞`). -/
def updMinNew (m : Option ℚ) (e : ℚ) : Option ℚ :=
  match m with
  | none => some e
  | some q => if e < q then some e else some q

/-- The R-wave acceptance test
`(points[1] as f64 - state.ecg_point_min) > (ecg_point_max - ecg_point_min) * 0.6`
spelled out over the possibly-infinite thresholds.  IEEE-754 cases:
if `ecg_point_min` is `+∞` (`none`) then the left side is `-∞` and the right
side is `-∞ * 0.6 = -∞` (both `-∞ - ∞` and `finite - ∞` are `-∞`), so the
strict comparison is false; if `ecg_point_min` is finite but
`ecg_point_max` is `-∞` (`none`) the right side is `-∞` and the left side is
finite, so the comparison is true; otherwise both are finite. -/
def peakCond (pmax pmin : Option ℚ) (p1 : ℚ) : Bool :=
  match pmax, pmin with
  | _, none => false
  | none, some _ => true  -- finite left side, `-∞` right side: always true
  | some mx, some m => decide (p1 - m > (mx - m) * (3/5))

/-- The heart-rate / RR-interval update performed inside the 3-point peak
detection window of `process_ecg_data`.  Input: last stored heart rate and
RR interval, the peak-interval counter, the current thresholds, and the
3-point window; output: new `(last_heart_rate, last_rr_interval,
peak_interval_num)`. -/
def hrUpdate (last_hr last_rr : ℚ) (pk : ℕ) (pmax pmin : Option ℚ)
    (pts : List ℤ) : ℚ × ℚ × ℕ :=
  match pts with
  | [p0, p1, p2] =>
    if p0 < p1 ∧ p1 > p2 then
      if peakCond pmax pmin (p1 : ℚ) then
        if pk ≠ 0 then
          let heart_rate := (60 : ℚ) / (1 / 250 * (pk : ℚ))
          let heart_rate := if heart_rate > 100 then 100 else heart_rate
          (heart_rate, 60 / heart_rate, 0)
        else (last_hr, last_rr, pk)
      else (last_hr, last_rr, pk + 1)
    else (last_hr, last_rr, pk + 1)
  | _ => (last_hr, last_rr, pk)

/-- One call of `DataProcessor::process_ecg_data`: push the sample, update
the next-epoch accumulators, commit the thresholds every 300 samples, run
3-point peak detection, truncate the 250-sample raw list, and return the
last stored `(heart_rate, rr_interval)` together with the new state. -/
def process_ecg_data (ecg_value : ℤ) (s : EcgProcessingState) :
    (ℚ × ℚ) × EcgProcessingState :=
  let list1 := s.ecg_data_original_list ++ [ecg_value]
  let e : ℚ := (ecg_value : ℚ)
  let max_new := if e > s.ecg_point_max_new then e else s.ecg_point_max_new
  let min_new := updMinNew s.ecg_point_min_new e
  let c1 := s.counter + 1
  let pmax := if c1 ≥ 300 then some max_new else s.ecg_point_max
  let pmin := if c1 ≥ 300 then min_new else s.ecg_point_min
  let max_new2 := if c1 ≥ 300 then (0 : ℚ) else max_new
  let min_new2 := if c1 ≥ 300 then (none : Option ℚ) else min_new
  let c2 := if c1 ≥ 300 then 0 else c1
  let list2 := if list1.length ≥ 250 then [] else list1
  if s.ecg_points.length < 3 then
    ((s.last_heart_rate, s.last_rr_interval),
     { ecg_point_max := pmax, ecg_point_min := pmin,
       ecg_point_max_new := max_new2, ecg_point_min_new := min_new2,
       ecg_points := s.ecg_points ++ [ecg_value],
       peak_interval_num := s.peak_interval_num, counter := c2,
       ecg_data_original_list := list2,
       last_heart_rate := s.last_heart_rate,
       last_rr_interval := s.last_rr_interval })
  else
    -- pop_front, push_back, then detect on the (length-3) window
    let pts := s.ecg_points.drop 1 ++ [ecg_value]
    let u := hrUpdate s.last_heart_rate s.last_rr_interval
      s.peak_interval_num pmax pmin pts
    ((u.1, u.2.1),
     { ecg_point_max := pmax, ecg_point_min := pmin,
       ecg_point_max_new := max_new2, ecg_point_min_new := min_new2,
       ecg_points := pts, peak_interval_num := u.2.2, counter := c2,
       ecg_data_original_list := list2,
       last_heart_rate := u.1, last_rr_interval := u.2.1 })

/-- Folding `process_ecg_data` over a list of raw ECG samples; returns the
list of `(heart_rate, rr_interval)` outputs and the final state. -/
def ecgRun (s : EcgProcessingState) : List ℤ → List (ℚ × ℚ) × EcgProcessingState
  | [] => ([], s)
  | v :: rest =>
    let one := process_ecg_data v s
    let more := ecgRun one.2 rest
    (one.1 :: more.1, more.2)

/-- LTTB configuration (`types.rs`, struct `LttbConfig`). -/
structure LttbConfig where
  buffer_size : ℕ
  compression_ratio : ℕ
  enable_dynamic_range : Bool
  range_update_interval : ℕ
deriving DecidableEq

/-- LTTB processing state (`types.rs`, struct `LttbProcessingState`, with
the two range fields that `DataProcessor::new` populates).  `global_min`
is initialized to `f64::INFINITY` (`none` = `+∞`); `global_max` to
`f64::NEG_INFINITY` (`none` = `-∞`). -/
structure LttbProcessingState where
  raw_buffer : List LttbDataPoint
  compressed_buffer : List LttbDataPoint
  buffer_size : ℕ
  compression_ratio : ℕ
  global_min : Option ℚ
  global_max : Option ℚ
  sample_counter : ℕ
  range_update_interval : ℕ
deriving DecidableEq

/-- Initial LTTB state built by `DataProcessor::new` from a config. -/
def initLttbState (cfg : LttbConfig) : LttbProcessingState :=
  { raw_buffer := [], compressed_buffer := [],
    buffer_size := cfg.buffer_size, compression_ratio := cfg.compression_ratio,
    global_min := none, global_max := none, sample_counter := 0,
    range_update_interval := cfg.range_update_interval }

/-- `if ecg_f64 > state.global_max { state.global_max = ecg_f64 }`, with
`none` standing for the `-∞` start value; the result is always finite. -/
def updGlobalMax (g : Option ℚ) (e : ℚ) : ℚ :=
  match g with
  | none => e
  | some q => if e > q then e else q

/-- `if ecg_f64 < state.global_min { state.global_min = ecg_f64 }`, with
`none` standing for the `+∞` start value; the result is always finite. -/
def updGlobalMin (g : Option ℚ) (e : ℚ) : ℚ :=
  match g with
  | none => e
  | some q => if e < q then e else q

/-- The normalization step of `process_ecg_lttb`:
`2.0 * (ecg_f64 - global_min) / (global_max - global_min) - 1.0` when the
updated bounds differ, else `0.0`; the bounds are the state's global
min/max after updating them with this sample. -/
def lttbNorm (s : LttbProcessingState) (ecg_value : ℤ) : ℚ :=
  if updGlobalMax s.global_max (ecg_value : ℚ) ≠
      updGlobalMin s.global_min (ecg_value : ℚ) then
    2 * ((ecg_value : ℚ) - updGlobalMin s.global_min (ecg_value : ℚ)) /
      (updGlobalMax s.global_max (ecg_value : ℚ) -
        updGlobalMin s.global_min (ecg_value : ℚ)) - 1
  else 0

/-- The inner summation loop of `lttb_downsample` that accumulates
`avg_x += data[j].x; avg_y += data[j].y` for `j` in
`avg_range_start..avg_range_end`; fuel-structured, `none` on an
out-of-bounds access. -/
def sumRange (data : List LttbDataPoint) :
    ℚ → ℚ → ℕ → ℕ → Option (ℚ × ℚ)
  | ax, ay, _, 0 => some (ax, ay)
  | ax, ay, j, k + 1 =>
    match data[j]? with
    | none => none
    | some p => sumRange data (ax + p.x) (ay + p.y) (j + 1) k

/-- The inner selection loop of `lttb_downsample`: over
`idx in range_offs..range_to.min(data.len())`, keep the index whose
triangle (shoelace) area against the anchor point and the next bucket's
centroid is largest; state is `(max_area, next_a)`, fuel-structured. -/
def maxTriLoop (data : List LttbDataPoint) (pax pay ax ay : ℚ) :
    ℚ → ℕ → ℕ → ℕ → Option (ℚ × ℕ)
  | maxArea, nextA, _, 0 => some (maxArea, nextA)
  | maxArea, nextA, idx, k + 1 =>
    match data[idx]? with
    | none => none
    | some p =>
      let area := |(pax * (p.y - ay) + p.x * (ay - pay) + ax * (pay - p.y)) / 2|
      if area > maxArea then maxTriLoop data pax pay ax ay area idx (idx + 1) k
      else maxTriLoop data pax pay ax ay maxArea nextA (idx + 1) k

/-- The next-bucket centroid computation of iteration `i` of
`lttb_downsample`'s main loop: `avg_range_start`/`avg_range_end` from the
floating-point bucket boundaries (floor-indexed, end clamped to
`data.len()`), then the average of the points in that range (`(0, 0)` when
the range is empty). -/
def lttbAvg (data : List LttbDataPoint) (n : ℕ) (bs : ℚ) (i : ℕ) :
    Option (ℚ × ℚ) :=
  let avg_range_start := (⌊((i : ℚ) + 1) * bs⌋).toNat + 1
  let avg_range_end := min ((⌊((i : ℚ) + 2) * bs⌋).toNat + 1) n
  if avg_range_start < avg_range_end then
    match sumRange data 0 0 avg_range_start (avg_range_end - avg_range_start) with
    | none => none
    | some (sx, sy) =>
      some (sx / ((avg_range_end - avg_range_start : ℕ) : ℚ),
            sy / ((avg_range_end - avg_range_start : ℕ) : ℚ))
  else some (0, 0)

/-- The main bucket loop of `lttb_downsample`
(`for i in 0..(threshold - 2)`): state is the anchor index `a` and the
`sampled` output so far; `n` is `data.len()`, `bs` the bucket size,
`i` the loop index, and the last argument the remaining fuel
(`threshold - 2 - i`). -/
def lttbLoop (data : List LttbDataPoint) (n : ℕ) (bs : ℚ) :
    ℕ → List LttbDataPoint → ℕ → ℕ → Option (ℕ × List LttbDataPoint)
  | a, sampled, _, 0 => some (a, sampled)
  | a, sampled, i, k + 1 =>
    match lttbAvg data n bs i with
    | none => none
    | some (ax, ay) =>
      let range_offs := (⌊(i : ℚ) * bs⌋).toNat + 1
      let range_to := (⌊((i : ℚ) + 1) * bs⌋).toNat + 1
      match data[a]? with
      | none => none
      | some pa =>
        match maxTriLoop data pa.x pa.y ax ay (-1) range_offs range_offs
            (min range_to n - range_offs) with
        | none => none
        | some (_, next_a) =>
          match data[next_a]? with
          | none => none
          | some pn => lttbLoop data n bs next_a (sampled ++ [pn]) (i + 1) k

/-- `DataProcessor::lttb_downsample`.  Every slice access of the source is
an `Option`-returning index here, so the result is `none` exactly when some
access would be out of bounds. -/
def lttb_downsample (data : List LttbDataPoint) (threshold : ℕ) :
    Option (List LttbDataPoint) :=
  if data.length ≤ threshold then some data
  else if threshold ≤ 2 then
    match data[0]?, data[data.length - 1]? with
    | some p0, some pl => some [p0, pl]
    | _, _ => none
  else
    match data[0]? with
    | none => none
    | some p0 =>
      let bucket_size : ℚ := ((data.length : ℚ) - 2) / ((threshold : ℚ) - 2)
      match lttbLoop data data.length bucket_size 0 [p0] 0 (threshold - 2) with
      | none => none
      | some (_, sampled) =>
        match data[data.length - 1]? with
        | none => none
        | some pl => some (sampled ++ [pl])

/-- Total version of `lttb_downsample` used by the pipeline step, matching
the Rust function (which is total); it is proved below that the `Option`
version never returns `none`, so the default is never taken. -/
def lttb_downsampleT (data : List LttbDataPoint) (threshold : ℕ) :
    List LttbDataPoint :=
  (lttb_downsample data threshold).getD []

/-- `DataProcessor::recalculate_global_range`.  Only reachable with both
global bounds finite (they are set by the first processed sample, and the
caller guards on a nonempty buffer and a positive sample counter); on the
unreachable infinite cases the state is returned unchanged. -/
def recalculate_global_range (s : LttbProcessingState) : LttbProcessingState :=
  if s.raw_buffer = [] then s
  else
    match s.global_max, s.global_min with
    | some gmax, some gmin =>
      let recent_data_size := min s.raw_buffer.length 500
      let start_idx := s.raw_buffer.length - recent_data_size
      let vals := (s.raw_buffer.drop start_idx).map
        (fun p => (p.y + 1) / 2 * (gmax - gmin) + gmin)
      let new_max := vals.foldl
        (fun acc v => match acc with
          | none => some v
          | some a => if v > a then some v else some a) (none : Option ℚ)
      let new_min := vals.foldl
        (fun acc v => match acc with
          | none => some v
          | some a => if v < a then some v else some a) (none : Option ℚ)
      match new_max, new_min with
      | some nmax, some nmin =>
        { s with global_max := some (gmax * (1 - 1/10) + nmax * (1/10)),
                 global_min := some (gmin * (1 - 1/10) + nmin * (1/10)) }
      | _, _ => s
    | _, _ => s

/-- The per-call outputs of `process_ecg_lttb`: the normalized value and the
compressed snapshot it returns, plus (for stating the claims) whether the
compression branch fired on this call and the data point pushed into the
raw buffer. -/
structure LttbStepOut where
  normalized : ℚ
  compressed : List LttbDataPoint
  fired : Bool
  pushed : LttbDataPoint
deriving DecidableEq

/-- One call of `DataProcessor::process_ecg_lttb`: update the global range,
normalize, push the point, optionally recalculate the dynamic range, and
compress when the raw buffer reaches the trigger size (keeping the most
recent quarter of the buffer). -/
def process_ecg_lttb (cfg : LttbConfig) (ecg_value : ℤ) (timestamp : ℚ)
    (s : LttbProcessingState) : LttbStepOut × LttbProcessingState :=
  let gmax := updGlobalMax s.global_max (ecg_value : ℚ)
  let gmin := updGlobalMin s.global_min (ecg_value : ℚ)
  let ecg_normalized : ℚ := lttbNorm s ecg_value
  let data_point : LttbDataPoint := { x := timestamp, y := ecg_normalized }
  let s1 := { s with global_max := some gmax, global_min := some gmin,
                     raw_buffer := s.raw_buffer ++ [data_point],
                     sample_counter := s.sample_counter + 1 }
  let s2 := if cfg.enable_dynamic_range &&
               (s1.sample_counter % cfg.range_update_interval == 0)
            then recalculate_global_range s1 else s1
  if s2.raw_buffer.length ≥ s2.buffer_size then
    let target_points := s2.buffer_size / s2.compression_ratio
    let compressed := lttb_downsampleT s2.raw_buffer target_points
    let keep_size := s2.buffer_size / 4
    let drain_end := s2.raw_buffer.length - keep_size
    ({ normalized := ecg_normalized, compressed := compressed,
       fired := true, pushed := data_point },
     { s2 with compressed_buffer := compressed,
               raw_buffer := s2.raw_buffer.drop drain_end })
  else
    ({ normalized := ecg_normalized, compressed := s2.compressed_buffer,
       fired := false, pushed := data_point }, s2)

/-- Folding `process_ecg_lttb` over a list of `(ecg, timestamp)` inputs;
returns the final state, the list of `fired` flags, and the list of points
pushed into the raw buffer, in call order. -/
def lttbRun (cfg : LttbConfig) (s : LttbProcessingState) :
    List (ℤ × ℚ) → LttbProcessingState × List Bool × List LttbDataPoint
  | [] => (s, [], [])
  | (e, t) :: rest =>
    let one := process_ecg_lttb cfg e t s
    let more := lttbRun cfg one.2 rest
    (more.1, one.1.fired :: more.2.1, one.1.pushed :: more.2.2)

/-- The bounded push used for both the raw-sample queue
(`SerialReader::start`) and the processed-data history
(`DataProcessor::start`): `if queue.len() >= 1000 { queue.pop_front(); }
queue.push_back(item)`. -/
def bounded_push {α : Type} (q : List α) (item : α) : List α :=
  (if q.length ≥ 1000 then q.tail else q) ++ [item]

/-- Pushing a whole list of items in order through `bounded_push`. -/
def pushAll {α : Type} (q : List α) (items : List α) : List α :=
  items.foldl bounded_push q

/-- A temperature state one sample short of the 70-sample window (69 stored
calibrated values), used to exercise the window-completing call. -/
def tempStateCexC5 : TemperatureProcessingState :=
  { temperatures := List.replicate 69 30, scale_factor := 4/5, offset := 0,
    max_temp := 186/5, room_temperature := 116/5 }

/-- An ECG state whose epoch counter is one sample away from the 300-sample
commit. -/
def ecgStateW : EcgProcessingState := { initEcgState with counter := 299 }

/-- The LTTB configuration of the end-to-end compression scenario:
`buffer_size = 1000`, `compression_ratio = 10`, dynamic range disabled,
`range_update_interval = 500`. -/
def lttbCfgC2 : LttbConfig :=
  { buffer_size := 1000, compression_ratio := 10,
    enable_dynamic_range := false, range_update_interval := 500 }

/- ### Bounded queue lemmas -/

theorem bounded_push_of_lt {α : Type} (q : List α) (x : α)
    (h : q.length < 1000) : bounded_push q x = q ++ [x] := by
  unfold bounded_push
  rw [if_neg (by omega)]

theorem bounded_push_of_ge {α : Type} (q : List α) (x : α)
    (h : 1000 ≤ q.length) : bounded_push q x = q.tail ++ [x] := by
  unfold bounded_push
  rw [if_pos h]

theorem pushAll_eq_drop {α : Type} :
    ∀ items : List α, pushAll [] items = items.drop (items.length - 1000) := by
  intro items
  induction items using List.reverseRecOn with
  | nil => simp [pushAll]
  | append_singleton l x ih =>
    have hfold : pushAll ([] : List α) (l ++ [x]) = bounded_push (pushAll [] l) x := by
      simp [pushAll, List.foldl_append]
    rw [hfold, ih]
    by_cases hl : l.length < 1000
    · rw [bounded_push_of_lt _ _ (by simp [List.length_drop]; omega)]
      have h0 : l.length - 1000 = 0 := by omega
      have h1 : l.length + 1 - 1000 = 0 := by omega
      simp [h0, h1]
    · push_neg at hl
      have hlen : (l.drop (l.length - 1000)).length = 1000 := by
        simp [List.length_drop]; omega
      rw [bounded_push_of_ge _ _ (by rw [hlen])]
      rw [List.tail_drop]
      have h2 : l.length - 1000 + 1 = l.length + 1 - 1000 := by omega
      rw [h2, ← List.drop_append_of_le_length (by omega)]
      simp

theorem pushAll_length_le {α : Type} (items : List α) :
    (pushAll ([] : List α) items).length ≤ 1000 := by
  rw [pushAll_eq_drop]
  simp [List.length_drop]
  omega

/-- C6: pushing 1001 items through the capacity-1000 bounded queue
(`SerialReader::start` / `DataProcessor::start` eviction logic) leaves
exactly the last 1000 items in arrival order; every push at length ≥ 1000
first evicts the oldest element; no prefix of pushes ever exceeds length
1000. -/
theorem C6_bounded_queue {α : Type} (items : List α)
    (h : items.length = 1001) :
    pushAll [] items = items.drop 1 ∧
    (∀ (q : List α) (x : α), 1000 ≤ q.length →
      bounded_push q x = q.tail ++ [x]) ∧
    (∀ pre suf : List α, items = pre ++ suf →
      (pushAll ([] : List α) pre).length ≤ 1000) := by
  refine ⟨?_, fun q x hq => bounded_push_of_ge q x hq, fun pre _ _ => pushAll_length_le pre⟩
  rw [pushAll_eq_drop, h]

theorem C6_witness :
    pushAll [] (List.replicate 1001 (0 : ℤ)) = (List.replicate 1001 (0 : ℤ)).drop 1 ∧
    (∀ (q : List ℤ) (x : ℤ), 1000 ≤ q.length →
      bounded_push q x = q.tail ++ [x]) ∧
    (∀ pre suf : List ℤ, List.replicate 1001 (0 : ℤ) = pre ++ suf →
      (pushAll ([] : List ℤ) pre).length ≤ 1000) :=
  C6_bounded_queue (List.replicate 1001 (0 : ℤ)) (by rw [List.length_replicate])

/- ### LTTB normalization lemmas -/

theorem updGlobalMin_le (g : Option ℚ) (e : ℚ) : updGlobalMin g e ≤ e := by
  unfold updGlobalMin
  cases g with
  | none => exact le_refl e
  | some q =>
    dsimp only
    split
    · exact le_refl e
    · exact le_of_not_lt (by assumption)

theorem le_updGlobalMax (g : Option ℚ) (e : ℚ) : e ≤ updGlobalMax g e := by
  unfold updGlobalMax
  cases g with
  | none => exact le_refl e
  | some q =>
    dsimp only
    split
    · exact le_refl e
    · exact le_of_not_lt (by assumption)

theorem process_ecg_lttb_normalized (cfg : LttbConfig) (ecg_value : ℤ)
    (timestamp : ℚ) (s : LttbProcessingState) :
    (process_ecg_lttb cfg ecg_value timestamp s).1.normalized =
      (if updGlobalMax s.global_max (ecg_value : ℚ) ≠
           updGlobalMin s.global_min (ecg_value : ℚ)
       then 2 * ((ecg_value : ℚ) - updGlobalMin s.global_min (ecg_value : ℚ)) /
              (updGlobalMax s.global_max (ecg_value : ℚ) -
                updGlobalMin s.global_min (ecg_value : ℚ)) - 1
       else 0) := by
  unfold process_ecg_lttb
  dsimp only
  split <;> split <;> (unfold lttbNorm; rfl)

theorem norm_formula_bounds (e m M : ℚ) (hme : m ≤ e) (heM : e ≤ M) :
    -1 ≤ (if M ≠ m then 2 * (e - m) / (M - m) - 1 else 0) ∧
    (if M ≠ m then 2 * (e - m) / (M - m) - 1 else 0) ≤ 1 := by
  split_ifs with h
  · have hlt : m < M := lt_of_le_of_ne (hme.trans heM) (Ne.symm h)
    have hpos : (0 : ℚ) < M - m := by linarith
    constructor
    · have h1 : (0 : ℚ) ≤ 2 * (e - m) / (M - m) :=
        div_nonneg (by linarith) hpos.le
      linarith
    · have h2 : 2 * (e - m) / (M - m) ≤ 2 := by
        rw [div_le_iff₀ hpos]
        linarith
      linarith
  · norm_num

/-- C8: on every call, `process_ecg_lttb` returns the normalized value
`2*(ecg - min)/(max - min) - 1` computed from the global min/max updated
with this sample (or `0` when they coincide), and that value lies in
`[-1, 1]`. -/
theorem C8_normalization (cfg : LttbConfig) (ecg_value : ℤ) (timestamp : ℚ)
    (s : LttbProcessingState) :
    (process_ecg_lttb cfg ecg_value timestamp s).1.normalized =
      (if updGlobalMax s.global_max (ecg_value : ℚ) ≠
           updGlobalMin s.global_min (ecg_value : ℚ)
       then 2 * ((ecg_value : ℚ) - updGlobalMin s.global_min (ecg_value : ℚ)) /
              (updGlobalMax s.global_max (ecg_value : ℚ) -
                updGlobalMin s.global_min (ecg_value : ℚ)) - 1
       else 0) ∧
    -1 ≤ (process_ecg_lttb cfg ecg_value timestamp s).1.normalized ∧
    (process_ecg_lttb cfg ecg_value timestamp s).1.normalized ≤ 1 := by
  have heq := process_ecg_lttb_normalized cfg ecg_value timestamp s
  have hb := norm_formula_bounds (ecg_value : ℚ)
    (updGlobalMin s.global_min (ecg_value : ℚ))
    (updGlobalMax s.global_max (ecg_value : ℚ))
    (updGlobalMin_le s.global_min (ecg_value : ℚ))
    (le_updGlobalMax s.global_max (ecg_value : ℚ))
  exact ⟨heq, by rw [heq]; exact hb.1, by rw [heq]; exact hb.2⟩

/- ### Temperature filter lemmas -/

theorem sortedInsert_length (x : ℚ) :
    ∀ l : List ℚ, (sortedInsert x l).length = l.length + 1
  | [] => rfl
  | y :: ys => by
    unfold sortedInsert
    split
    · simp
    · simp [sortedInsert_length x ys]

theorem insertionSort_length :
    ∀ l : List ℚ, (insertionSort l).length = l.length
  | [] => rfl
  | x :: xs => by
    unfold insertionSort
    rw [sortedInsert_length, insertionSort_length xs, List.length_cons]

/-- A call of `process_body_temperature` on a buffer holding exactly 69
values completes the 70-sample window: its result is the clamped trimmed
mean of the sorted window (oldest-first buffer plus this call's adjusted
value), and the buffer is cleared. -/
theorem process_body_temperature_window (raw_temp : ℤ)
    (s : TemperatureProcessingState) (h69 : s.temperatures.length = 69) :
    process_body_temperature raw_temp s =
      (let adjusted := if calibTemp s raw_temp < s.room_temperature - 10
                       then s.room_temperature else calibTemp s raw_temp
       let sorted := insertionSort (s.temperatures ++ [adjusted])
       let trimmed := (sorted.drop 10).take 50
       let avg := trimmed.sum / (trimmed.length : ℚ)
       if avg > s.max_temp then s.max_temp else avg,
       { s with temperatures := [] }) := by
  unfold process_body_temperature calibTemp
  dsimp only
  set adjusted := if (raw_temp : ℚ) / 10 * s.scale_factor + s.offset <
      s.room_temperature - 10 then s.room_temperature
      else (raw_temp : ℚ) / 10 * s.scale_factor + s.offset with hadj
  have hlen1 : (s.temperatures ++ [adjusted]).length = 70 := by
    simp [h69]
  have hgt : ¬ (s.temperatures ++ [adjusted]).length > 70 := by omega
  rw [if_neg hgt, if_pos hlen1]
  have hsl : (insertionSort (s.temperatures ++ [adjusted])).length ≥ 20 := by
    rw [insertionSort_length, hlen1]; omega
  rw [if_pos hsl, insertionSort_length, hlen1]
  norm_num
  split <;> rfl

theorem sortedInsert_replicate_self (a : ℚ) :
    ∀ n, sortedInsert a (List.replicate n a) = List.replicate (n + 1) a
  | 0 => rfl
  | n + 1 => by
    rw [List.replicate_succ]
    unfold sortedInsert
    rw [if_pos (le_refl a)]
    rfl

theorem insertionSort_replicate_above (a t : ℚ) (h : ¬ a ≤ t) :
    ∀ n, insertionSort (List.replicate n a ++ [t]) = t :: List.replicate n a
  | 0 => rfl
  | n + 1 => by
    rw [List.replicate_succ, List.cons_append]
    unfold insertionSort
    rw [insertionSort_replicate_above a t h n]
    unfold sortedInsert
    rw [if_neg h, sortedInsert_replicate_self]
    rfl

/- ### Temperature fault-substitution (C5) -/

/-- C5 counterexample: in a buffer state holding 69 values, a faulty
low-temperature sample (calibrated value below `room_temperature - 10`)
completes the 70-sample window, and the call returns the trimmed mean of the
window instead of `room_temperature`. -/
theorem C5_counterexample :
    calibTemp tempStateCexC5 0 < tempStateCexC5.room_temperature - 10 ∧
    (process_body_temperature 0 tempStateCexC5).1 ≠
      tempStateCexC5.room_temperature := by
  have hfault : calibTemp tempStateCexC5 0 <
      tempStateCexC5.room_temperature - 10 := by
    norm_num [calibTemp, tempStateCexC5]
  refine ⟨hfault, ?_⟩
  have hw := process_body_temperature_window 0 tempStateCexC5
    (by simp [tempStateCexC5])
  rw [hw]
  dsimp only
  rw [if_pos hfault]
  have hsort : insertionSort (tempStateCexC5.temperatures ++
      [tempStateCexC5.room_temperature]) =
      (116/5 : ℚ) :: List.replicate 69 (30 : ℚ) :=
    insertionSort_replicate_above 30 (116/5) (by norm_num) 69
  rw [hsort]
  have htrim : (((116/5 : ℚ) :: List.replicate 69 (30 : ℚ)).drop 10).take 50 =
      List.replicate 50 (30 : ℚ) := by
    rw [List.drop_succ_cons, List.drop_replicate, List.take_replicate]
    norm_num
  rw [htrim, List.sum_replicate, List.length_replicate]
  rw [if_neg (by norm_num [tempStateCexC5])]
  norm_num [tempStateCexC5]

/-- C5 (amended): a call whose calibrated value falls below
`room_temperature - 10` returns `room_temperature`, provided the call does
not complete the 70-sample statistical window (buffer length before the
call neither 69 nor 70); a window-completing call instead returns the
trimmed mean of the window (with `room_temperature` substituted into it). -/
theorem C5_low_temp_substitution (raw_temp : ℤ)
    (s : TemperatureProcessingState)
    (hfault : calibTemp s raw_temp < s.room_temperature - 10)
    (h69 : s.temperatures.length ≠ 69) (h70 : s.temperatures.length ≠ 70) :
    (process_body_temperature raw_temp s).1 = s.room_temperature := by
  unfold process_body_temperature
  dsimp only
  have hfault' : (raw_temp : ℚ) / 10 * s.scale_factor + s.offset <
      s.room_temperature - 10 := hfault
  rw [if_pos hfault']
  by_cases hgt : (s.temperatures ++ [s.room_temperature]).length > 70
  · rw [if_pos hgt]
    have hne : ¬ ((s.temperatures ++ [s.room_temperature]).drop 1).length = 70 := by
      simp only [List.length_drop, List.length_append, List.length_cons,
        List.length_nil] at hgt ⊢
      omega
    rw [if_neg hne]
  · rw [if_neg hgt]
    have hne : ¬ (s.temperatures ++ [s.room_temperature]).length = 70 := by
      simp only [List.length_append, List.length_cons, List.length_nil] at hgt ⊢
      omega
    rw [if_neg hne]

theorem C5_witness :
    (calibTemp initTempState 0 < initTempState.room_temperature - 10 ∧
     initTempState.temperatures.length ≠ 69 ∧
     initTempState.temperatures.length ≠ 70) ∧
    (process_body_temperature 0 initTempState).1 =
      initTempState.room_temperature :=
  ⟨⟨by norm_num [calibTemp, initTempState], by simp [initTempState],
    by simp [initTempState]⟩,
   C5_low_temp_substitution 0 initTempState
     (by norm_num [calibTemp, initTempState]) (by simp [initTempState])
     (by simp [initTempState])⟩

/- ### ECG epoch commit (C7) -/

/-- C7: on any call where the epoch counter reaches 300 (`counter + 1 ≥
300`), `process_ecg_data` commits the accumulated next-epoch max/min as the
current thresholds, resets the accumulators to the asymmetric start values
(max `0`, min `+∞` i.e. `none`), and resets the counter to `0`; and any
call starting with `counter ≤ 299` ends with `counter ≤ 299`. -/
theorem C7_epoch_commit (ecg_value : ℤ) (s : EcgProcessingState) :
    (300 ≤ s.counter + 1 →
      (process_ecg_data ecg_value s).2.counter = 0 ∧
      (process_ecg_data ecg_value s).2.ecg_point_max =
        some (if (ecg_value : ℚ) > s.ecg_point_max_new then (ecg_value : ℚ)
              else s.ecg_point_max_new) ∧
      (process_ecg_data ecg_value s).2.ecg_point_min =
        updMinNew s.ecg_point_min_new (ecg_value : ℚ) ∧
      (process_ecg_data ecg_value s).2.ecg_point_max_new = 0 ∧
      (process_ecg_data ecg_value s).2.ecg_point_min_new = none) ∧
    (s.counter ≤ 299 → (process_ecg_data ecg_value s).2.counter ≤ 299) := by
  constructor
  · intro h
    unfold process_ecg_data
    dsimp only
    simp only [if_pos h]
    split <;> exact ⟨rfl, rfl, rfl, rfl, rfl⟩
  · intro h
    unfold process_ecg_data
    dsimp only
    split <;> (dsimp only; split <;> omega)

theorem C7_witness :
    ((process_ecg_data 5 ecgStateW).2.counter = 0 ∧
     (process_ecg_data 5 ecgStateW).2.ecg_point_max =
       some (if ((5 : ℤ) : ℚ) > ecgStateW.ecg_point_max_new then ((5 : ℤ) : ℚ)
             else ecgStateW.ecg_point_max_new) ∧
     (process_ecg_data 5 ecgStateW).2.ecg_point_min =
       updMinNew ecgStateW.ecg_point_min_new ((5 : ℤ) : ℚ) ∧
     (process_ecg_data 5 ecgStateW).2.ecg_point_max_new = 0 ∧
     (process_ecg_data 5 ecgStateW).2.ecg_point_min_new = none) ∧
    (process_ecg_data 5 ecgStateW).2.counter ≤ 299 :=
  ⟨(C7_epoch_commit 5 ecgStateW).1 (by decide),
   (C7_epoch_commit 5 ecgStateW).2 (by decide)⟩

/- ### Heart-rate bounds (C3) -/

theorem hrUpdate_fst_bounds (last_hr last_rr : ℚ) (pk : ℕ)
    (pmax pmin : Option ℚ) (pts : List ℤ)
    (h0 : 0 ≤ last_hr) (h1 : last_hr ≤ 100) :
    0 ≤ (hrUpdate last_hr last_rr pk pmax pmin pts).1 ∧
    (hrUpdate last_hr last_rr pk pmax pmin pts).1 ≤ 100 := by
  unfold hrUpdate
  split
  · split
    · split
      · split
        · dsimp only
          split
          · exact ⟨by norm_num, le_refl 100⟩
          · rename_i hpk hle
            have hpk' : (0 : ℚ) < (pk : ℚ) := by
              exact_mod_cast Nat.pos_of_ne_zero hpk
            have hpos : (0 : ℚ) < 1 / 250 * (pk : ℚ) := by positivity
            constructor
            · exact le_of_lt (div_pos (by norm_num) hpos)
            · exact le_of_not_lt hle
        · exact ⟨h0, h1⟩
      · exact ⟨h0, h1⟩
    · exact ⟨h0, h1⟩
  · exact ⟨h0, h1⟩

theorem process_ecg_data_fst_eq (ecg_value : ℤ) (s : EcgProcessingState) :
    (process_ecg_data ecg_value s).1.1 =
      (process_ecg_data ecg_value s).2.last_heart_rate := by
  unfold process_ecg_data
  dsimp only
  split <;> rfl

theorem process_ecg_data_hr_bounds (ecg_value : ℤ) (s : EcgProcessingState)
    (h0 : 0 ≤ s.last_heart_rate) (h1 : s.last_heart_rate ≤ 100) :
    0 ≤ (process_ecg_data ecg_value s).2.last_heart_rate ∧
    (process_ecg_data ecg_value s).2.last_heart_rate ≤ 100 := by
  unfold process_ecg_data
  dsimp only
  split
  · exact ⟨h0, h1⟩
  · exact hrUpdate_fst_bounds _ _ _ _ _ _ h0 h1

theorem ecgRun_hr_bounds :
    ∀ (inputs : List ℤ) (s : EcgProcessingState),
      0 ≤ s.last_heart_rate → s.last_heart_rate ≤ 100 →
      ∀ o ∈ (ecgRun s inputs).1, 0 ≤ o.1 ∧ o.1 ≤ 100
  | [], _, _, _ => by
    intro o ho
    simp [ecgRun] at ho
  | v :: rest, s, h0, h1 => by
    intro o ho
    have hs := process_ecg_data_hr_bounds v s h0 h1
    simp only [ecgRun, List.mem_cons] at ho
    rcases ho with rfl | ho
    · rw [process_ecg_data_fst_eq]
      exact hs
    · exact ecgRun_hr_bounds rest (process_ecg_data v s).2 hs.1 hs.2 o ho

/-- C3: from the initial extractor state, every heart rate ever returned by
`process_ecg_data` over any finite input sequence lies in `[0, 100]` bpm
(it starts at `0`, and every stored update is positive and clamped at
`100`). -/
theorem C3_heart_rate_bounds (inputs : List ℤ) (o : ℚ × ℚ)
    (ho : o ∈ (ecgRun initEcgState inputs).1) : 0 ≤ o.1 ∧ o.1 ≤ 100 :=
  ecgRun_hr_bounds inputs initEcgState (le_refl 0) (by norm_num [initEcgState]) o ho

theorem C3_witness :
    ((0, 0) ∈ (ecgRun initEcgState [0]).1) ∧
    (0 ≤ ((0 : ℚ), (0 : ℚ)).1 ∧ ((0 : ℚ), (0 : ℚ)).1 ≤ 100) :=
  ⟨by decide, C3_heart_rate_bounds [0] (0, 0) (by decide)⟩

/- ### LTTB downsampling: totality, length, endpoints -/

theorem sumRange_some (data : List LttbDataPoint) :
    ∀ (k : ℕ) (ax ay : ℚ) (j : ℕ), j + k ≤ data.length →
      ∃ r, sumRange data ax ay j k = some r
  | 0, ax, ay, _, _ => ⟨(ax, ay), rfl⟩
  | k + 1, ax, ay, j, h => by
    have hj : j < data.length := by omega
    rw [sumRange, List.getElem?_eq_getElem hj]
    exact sumRange_some data k (ax + data[j].x) (ay + data[j].y) (j + 1) (by omega)

theorem lttbAvg_some (data : List LttbDataPoint) (bs : ℚ) (i : ℕ) :
    ∃ r, lttbAvg data data.length bs i = some r := by
  unfold lttbAvg
  dsimp only
  split
  · rename_i hse
    obtain ⟨⟨sx, sy⟩, hsum⟩ := sumRange_some data
      (min ((⌊((i : ℚ) + 2) * bs⌋).toNat + 1) data.length -
        ((⌊((i : ℚ) + 1) * bs⌋).toNat + 1))
      0 0 ((⌊((i : ℚ) + 1) * bs⌋).toNat + 1) (by omega)
    rw [hsum]
    exact ⟨_, rfl⟩
  · exact ⟨_, rfl⟩

theorem maxTriLoop_some (data : List LttbDataPoint) (pax pay ax ay : ℚ) :
    ∀ (k : ℕ) (ma : ℚ) (na idx : ℕ), na < data.length →
      idx + k ≤ data.length →
      ∃ r : ℚ × ℕ, maxTriLoop data pax pay ax ay ma na idx k = some r ∧
        r.2 < data.length
  | 0, ma, na, _, hna, _ => ⟨(ma, na), rfl, hna⟩
  | k + 1, ma, na, idx, hna, h => by
    have hidx : idx < data.length := by omega
    rw [maxTriLoop, List.getElem?_eq_getElem hidx]
    dsimp only
    split
    · exact maxTriLoop_some data pax pay ax ay k _ idx (idx + 1) hidx (by omega)
    · exact maxTriLoop_some data pax pay ax ay k ma na (idx + 1) hna (by omega)

/-- Any bucket start index `floor(i * bucket_size) + 1` with `i` strictly
inside the loop range stays strictly below `data.len()`. -/
theorem lttb_floor_bound (n T : ℕ) (h2 : 2 < T) (hT : T < n) (i : ℕ)
    (hi : i < T - 2) :
    (⌊(i : ℚ) * (((n : ℚ) - 2) / ((T : ℚ) - 2))⌋).toNat + 1 < n := by
  have hTpos : (0 : ℚ) < (T : ℚ) - 2 := by
    have h : (2 : ℚ) < (T : ℚ) := by exact_mod_cast h2
    linarith
  have hnpos : (0 : ℚ) < (n : ℚ) - 2 := by
    have h : (2 : ℚ) < (n : ℚ) := by exact_mod_cast (by omega : 2 < n)
    linarith
  have hbs : (0 : ℚ) < ((n : ℚ) - 2) / ((T : ℚ) - 2) := div_pos hnpos hTpos
  have hiq : (i : ℚ) < (T : ℚ) - 2 := by
    have h : (i : ℚ) < ((T - 2 : ℕ) : ℚ) := by exact_mod_cast hi
    rwa [Nat.cast_sub (by omega), Nat.cast_ofNat] at h
  have hmul : (i : ℚ) * (((n : ℚ) - 2) / ((T : ℚ) - 2)) < (n : ℚ) - 2 := by
    have h1 : (i : ℚ) * (((n : ℚ) - 2) / ((T : ℚ) - 2)) <
        ((T : ℚ) - 2) * (((n : ℚ) - 2) / ((T : ℚ) - 2)) :=
      mul_lt_mul_of_pos_right hiq hbs
    have hcancel : ((T : ℚ) - 2) * (((n : ℚ) - 2) / ((T : ℚ) - 2)) =
        (n : ℚ) - 2 := by
      rw [mul_comm, div_mul_cancel₀ _ (ne_of_gt hTpos)]
    rwa [hcancel] at h1
  have hfl : ⌊(i : ℚ) * (((n : ℚ) - 2) / ((T : ℚ) - 2))⌋ < (n : ℤ) - 2 := by
    apply Int.floor_lt.mpr
    push_cast
    exact hmul
  have hge : 0 ≤ ⌊(i : ℚ) * (((n : ℚ) - 2) / ((T : ℚ) - 2))⌋ :=
    Int.floor_nonneg.mpr (by positivity)
  omega

theorem lttbLoop_some (data : List LttbDataPoint) (T : ℕ)
    (h2 : 2 < T) (hT : T < data.length) :
    ∀ (k i a : ℕ) (sampled : List LttbDataPoint),
      i + k = T - 2 → a < data.length →
      ∃ (a' : ℕ) (suff : List LttbDataPoint),
        lttbLoop data data.length (((data.length : ℚ) - 2) / ((T : ℚ) - 2))
          a sampled i k = some (a', sampled ++ suff) ∧
        suff.length = k ∧ a' < data.length
  | 0, _, a, sampled, _, ha => ⟨a, [], by simp [lttbLoop], rfl, ha⟩
  | k + 1, i, a, sampled, hik, ha => by
    obtain ⟨⟨ax, ay⟩, havg⟩ :=
      lttbAvg_some data (((data.length : ℚ) - 2) / ((T : ℚ) - 2)) i
    rw [lttbLoop, havg]
    dsimp only
    rw [List.getElem?_eq_getElem ha]
    dsimp only
    have hoffs :
        (⌊(i : ℚ) * (((data.length : ℚ) - 2) / ((T : ℚ) - 2))⌋).toNat + 1 <
          data.length :=
      lttb_floor_bound data.length T h2 hT i (by omega)
    obtain ⟨⟨m, next_a⟩, hmtl, hna⟩ :=
      maxTriLoop_some data (data[a]).x (data[a]).y ax ay
        (min ((⌊((i : ℚ) + 1) *
            (((data.length : ℚ) - 2) / ((T : ℚ) - 2))⌋).toNat + 1)
          data.length -
          ((⌊(i : ℚ) * (((data.length : ℚ) - 2) / ((T : ℚ) - 2))⌋).toNat + 1))
        (-1)
        ((⌊(i : ℚ) * (((data.length : ℚ) - 2) / ((T : ℚ) - 2))⌋).toNat + 1)
        ((⌊(i : ℚ) * (((data.length : ℚ) - 2) / ((T : ℚ) - 2))⌋).toNat + 1)
        hoffs (by omega)
    rw [hmtl]
    dsimp only
    rw [List.getElem?_eq_getElem hna]
    dsimp only
    obtain ⟨a', suff, heq, hlen, ha'⟩ :=
      lttbLoop_some data T h2 hT k (i + 1) next_a (sampled ++ [data[next_a]])
        (by omega) hna
    refine ⟨a', data[next_a] :: suff, ?_, by simp [hlen], ha'⟩
    rw [heq, List.append_assoc]
    rfl

/-- The main branch of `lttb_downsample` (`threshold > 2` and
`data.len() > threshold`) succeeds, returns exactly `threshold` points, and
keeps the first and last input point at the two ends. -/
theorem lttb_downsample_spec (data : List LttbDataPoint) (T : ℕ)
    (h2 : 2 < T) (hT : T < data.length) :
    ∃ l, lttb_downsample data T = some l ∧ l.length = T ∧
      l.head? = data.head? ∧ l.getLast? = data.getLast? := by
  have hnle : ¬ data.length ≤ T := by omega
  have h0 : 0 < data.length := by omega
  have hl1 : data.length - 1 < data.length := by omega
  unfold lttb_downsample
  rw [if_neg hnle, if_neg (by omega : ¬ T ≤ 2), List.getElem?_eq_getElem h0]
  dsimp only
  obtain ⟨a', suff, heq, hlen, _⟩ :=
    lttbLoop_some data T h2 hT (T - 2) 0 0 [data[0]] (by omega) h0
  rw [heq]
  dsimp only
  rw [List.getElem?_eq_getElem hl1]
  refine ⟨([data[0]] ++ suff) ++ [data[data.length - 1]], rfl, ?_, ?_, ?_⟩
  · simp only [List.length_append, List.length_cons, List.length_nil,
      List.length_singleton, hlen]
    omega
  · show (data[0] :: (suff ++ [data[data.length - 1]])).head? = data.head?
    rw [List.head?_cons, List.head?_eq_getElem?, List.getElem?_eq_getElem h0]
  · rw [List.getLast?_concat, List.getLast?_eq_getElem?,
      List.getElem?_eq_getElem hl1]

/-- C10: `lttb_downsample` is total — for every input and every threshold,
all of its slice accesses are in bounds (the `Option`-returning embedding
never yields `none`). -/
theorem C10_lttb_downsample_total (data : List LttbDataPoint)
    (threshold : ℕ) : (lttb_downsample data threshold).isSome := by
  by_cases hlen : data.length ≤ threshold
  · unfold lttb_downsample
    rw [if_pos hlen]
    rfl
  · by_cases ht2 : threshold ≤ 2
    · unfold lttb_downsample
      rw [if_neg hlen, if_pos ht2,
        List.getElem?_eq_getElem (by omega : 0 < data.length),
        List.getElem?_eq_getElem (by omega : data.length - 1 < data.length)]
      rfl
    · obtain ⟨l, hl, _⟩ :=
        lttb_downsample_spec data threshold (by omega) (by omega)
      rw [hl]
      rfl

/-- C1: whenever `len(points) > threshold > 2`, `lttb_downsample` returns
exactly `threshold` points, beginning with `points[0]` and ending with
`points[len - 1]`. -/
theorem C1_lttb_length_endpoints (data : List LttbDataPoint) (threshold : ℕ)
    (h1 : threshold < data.length) (h2 : 2 < threshold) :
    ∃ l, lttb_downsample data threshold = some l ∧ l.length = threshold ∧
      l.head? = data.head? ∧ l.getLast? = data.getLast? :=
  lttb_downsample_spec data threshold h2 h1

theorem C1_witness : ∃ l,
    lttb_downsample [⟨0, 0⟩, ⟨1, 1⟩, ⟨2, 0⟩, ⟨3, 1⟩] 3 = some l ∧
    l.length = 3 ∧
    l.head? = ([⟨0, 0⟩, ⟨1, 1⟩, ⟨2, 0⟩, ⟨3, 1⟩] : List LttbDataPoint).head? ∧
    l.getLast? = ([⟨0, 0⟩, ⟨1, 1⟩, ⟨2, 0⟩, ⟨3, 1⟩] : List LttbDataPoint).getLast? :=
  C1_lttb_length_endpoints [⟨0, 0⟩, ⟨1, 1⟩, ⟨2, 0⟩, ⟨3, 1⟩] 3 (by simp) (by omega)

/- ### LTTB small-threshold behaviour (C9) -/

/-- C9 counterexample: on a one-point input with `threshold = 2`, the
`data.len() <= threshold` early return yields the single input point, not
the claimed two-element `[points[0], points[len-1]]`. -/
theorem C9_counterexample :
    lttb_downsample [({ x := 0, y := 0 } : LttbDataPoint)] 2 =
      some [{ x := 0, y := 0 }] ∧
    some [({ x := 0, y := 0 } : LttbDataPoint)] ≠
      some [({ x := 0, y := 0 } : LttbDataPoint), { x := 0, y := 0 }] := by
  constructor
  · rfl
  · simp

/-- C9 (amended): for every input with at least two points and every
`threshold ≤ 2`, `lttb_downsample` returns exactly `[points[0],
points[len-1]]` (on shorter inputs the `len ≤ threshold` early return gives
the input back unchanged). -/
theorem C9_first_last (data : List LttbDataPoint) (threshold : ℕ)
    (ht : threshold ≤ 2) (hlen : 2 ≤ data.length) :
    ∃ p0 pl, data.head? = some p0 ∧ data.getLast? = some pl ∧
      lttb_downsample data threshold = some [p0, pl] := by
  match data, hlen with
  | a :: b :: rest, _ =>
    by_cases hle : (a :: b :: rest).length ≤ threshold
    · have hr : rest = [] := by
        have : rest.length = 0 := by
          simp only [List.length_cons] at hle
          omega
        exact List.length_eq_zero.mp this
      subst hr
      exact ⟨a, b, rfl, rfl, by unfold lttb_downsample; rw [if_pos hle]⟩
    · have hlt : (a :: b :: rest).length - 1 < (a :: b :: rest).length := by
        simp
      refine ⟨a, (a :: b :: rest)[(a :: b :: rest).length - 1], rfl, ?_, ?_⟩
      · rw [List.getLast?_eq_getElem?, List.getElem?_eq_getElem hlt]
      · unfold lttb_downsample
        rw [if_neg hle, if_pos ht, List.getElem?_eq_getElem hlt]
        rfl

theorem C9_witness : ∃ p0 pl,
    ([⟨0, 0⟩, ⟨5, 1⟩] : List LttbDataPoint).head? = some p0 ∧
    ([⟨0, 0⟩, ⟨5, 1⟩] : List LttbDataPoint).getLast? = some pl ∧
    lttb_downsample [⟨0, 0⟩, ⟨5, 1⟩] 2 = some [p0, pl] :=
  C9_first_last [⟨0, 0⟩, ⟨5, 1⟩] 2 (le_refl 2) (by simp)

/- ### Temperature 70-sample window scenario (C4) -/

theorem calibTemp_update (s : TemperatureProcessingState) (l : List ℚ) :
    calibTemp { s with temperatures := l } = calibTemp s := rfl

theorem process_body_temperature_pass (r : ℤ) (s : TemperatureProcessingState)
    (hnf : ¬ (calibTemp s r < s.room_temperature - 10))
    (hlen : s.temperatures.length < 69) :
    process_body_temperature r s =
      (calibTemp s r,
       { s with temperatures := s.temperatures ++ [calibTemp s r] }) := by
  unfold process_body_temperature
  dsimp only
  have hnf' : ¬ ((r : ℚ) / 10 * s.scale_factor + s.offset <
      s.room_temperature - 10) := hnf
  rw [if_neg hnf']
  have h1 : ¬ (s.temperatures ++
      [(r : ℚ) / 10 * s.scale_factor + s.offset]).length > 70 := by
    simp only [List.length_append, List.length_cons, List.length_nil]
    omega
  rw [if_neg h1]
  have h2 : ¬ (s.temperatures ++
      [(r : ℚ) / 10 * s.scale_factor + s.offset]).length = 70 := by
    simp only [List.length_append, List.length_cons, List.length_nil]
    omega
  rw [if_neg h2]
  rfl

theorem tempRun_fill :
    ∀ (raws : List ℤ) (s : TemperatureProcessingState),
      s.temperatures.length + raws.length ≤ 69 →
      (∀ r ∈ raws, ¬ (calibTemp s r < s.room_temperature - 10)) →
      tempRun s raws =
        (raws.map (calibTemp s),
         { s with temperatures := s.temperatures ++ raws.map (calibTemp s) })
  | [], s, _, _ => by simp [tempRun]
  | r :: rest, s, hlen, hnf => by
    simp only [List.length_cons] at hlen
    have hstep := process_body_temperature_pass r s
      (hnf r (List.mem_cons_self r rest)) (by omega)
    rw [tempRun, hstep]
    dsimp only
    rw [tempRun_fill rest { s with temperatures := s.temperatures ++ [calibTemp s r] }
      (by simp only [List.length_append, List.length_cons, List.length_nil]; omega)
      (fun x hx => hnf x (List.mem_cons_of_mem r hx))]
    dsimp only
    rw [List.append_assoc]
    rfl

theorem tempRun_append (l1 l2 : List ℤ) :
    ∀ s, tempRun s (l1 ++ l2) =
      ((tempRun s l1).1 ++ (tempRun (tempRun s l1).2 l2).1,
       (tempRun (tempRun s l1).2 l2).2) := by
  induction l1 with
  | nil => intro s; simp [tempRun]
  | cons r rest ih =>
    intro s
    conv_lhs => rw [List.cons_append, tempRun, ih]
    conv_rhs => rw [tempRun]
    rfl

/-- C4: from an empty buffer, feeding exactly 70 samples none of which
triggers the low-temperature fault substitution, the first 69 calls return
their own calibrated values, and the 70th call sorts the 70 calibrated
values, discards the 10 lowest and 10 highest, averages the remaining 50,
clamps the average at `max_temp`, returns it, and clears the buffer. -/
theorem C4_temperature_window (raws : List ℤ)
    (s0 : TemperatureProcessingState)
    (hbuf : s0.temperatures = []) (hlen : raws.length = 70)
    (hnf : ∀ r ∈ raws, ¬ (calibTemp s0 r < s0.room_temperature - 10)) :
    (tempRun s0 raws).1 =
      (raws.take 69).map (calibTemp s0) ++
        [if (((insertionSort (raws.map (calibTemp s0))).drop 10).take 50).sum / 50 >
            s0.max_temp
         then s0.max_temp
         else (((insertionSort (raws.map (calibTemp s0))).drop 10).take 50).sum / 50] ∧
    (tempRun s0 raws).2.temperatures = [] := by
  obtain ⟨r70, hr70⟩ : ∃ r70, raws.drop 69 = [r70] :=
    List.length_eq_one.mp (by rw [List.length_drop, hlen])
  have hsplit : raws = raws.take 69 ++ [r70] := by
    conv_lhs => rw [← List.take_append_drop 69 raws]
    rw [hr70]
  have htk : (raws.take 69).length = 69 := by
    rw [List.length_take, hlen]
    omega
  have hmem70 : r70 ∈ raws := by
    rw [hsplit]
    exact List.mem_append_right _ (List.mem_cons_self r70 [])
  have hnf' : ∀ r ∈ raws.take 69,
      ¬ (calibTemp s0 r < s0.room_temperature - 10) :=
    fun r hr => hnf r (List.mem_of_mem_take hr)
  have hfill := tempRun_fill (raws.take 69) s0
    (by simp only [hbuf, List.length_nil, htk]; omega) hnf'
  have hrun : tempRun s0 raws = tempRun s0 (raws.take 69 ++ [r70]) := by
    rw [← hsplit]
  rw [hrun, tempRun_append, hfill]
  dsimp only
  simp only [tempRun]
  set s69 : TemperatureProcessingState :=
    { s0 with temperatures :=
        s0.temperatures ++ (raws.take 69).map (calibTemp s0) } with hs69
  have h69 : s69.temperatures.length = 69 := by
    rw [hs69]
    dsimp only
    rw [hbuf, List.nil_append, List.length_map, htk]
  have hwin := process_body_temperature_window r70 s69 h69
  rw [hwin]
  dsimp only
  have hroom : s69.room_temperature = s0.room_temperature := by rw [hs69]
  have hmaxt : s69.max_temp = s0.max_temp := by rw [hs69]
  have hcal : calibTemp s69 = calibTemp s0 := by rw [hs69, calibTemp_update]
  rw [hcal, hroom, hmaxt]
  rw [if_neg (hnf r70 hmem70)]
  rw [hbuf]
  simp only [List.nil_append]
  have hmapfull : (raws.take 69).map (calibTemp s0) ++ [calibTemp s0 r70] =
      raws.map (calibTemp s0) := by
    conv_rhs => rw [hsplit]
    rw [List.map_append]
    rfl
  rw [hmapfull]
  have hlen50 :
      (((insertionSort (raws.map (calibTemp s0))).drop 10).take 50).length = 50 := by
    rw [List.length_take, List.length_drop, insertionSort_length,
      List.length_map, hlen]
    omega
  rw [hlen50]
  simp only [Nat.cast_ofNat]
  exact ⟨trivial, trivial⟩

theorem C4_witness :
    ((List.replicate 70 (450 : ℤ)).length = 70 ∧
     initTempState.temperatures = [] ∧
     (∀ r ∈ List.replicate 70 (450 : ℤ),
       ¬ (calibTemp initTempState r < initTempState.room_temperature - 10))) ∧
    ((tempRun initTempState (List.replicate 70 (450 : ℤ))).1 =
      ((List.replicate 70 (450 : ℤ)).take 69).map (calibTemp initTempState) ++
        [if (((insertionSort ((List.replicate 70 (450 : ℤ)).map
              (calibTemp initTempState))).drop 10).take 50).sum / 50 >
            initTempState.max_temp
         then initTempState.max_temp
         else (((insertionSort ((List.replicate 70 (450 : ℤ)).map
              (calibTemp initTempState))).drop 10).take 50).sum / 50] ∧
     (tempRun initTempState (List.replicate 70 (450 : ℤ))).2.temperatures = []) :=
  ⟨⟨by rw [List.length_replicate], rfl,
    by
      intro r hr
      rw [List.eq_of_mem_replicate hr]
      norm_num [calibTemp, initTempState]⟩,
   C4_temperature_window (List.replicate 70 (450 : ℤ)) initTempState rfl
     (by rw [List.length_replicate])
     (by
       intro r hr
       rw [List.eq_of_mem_replicate hr]
       norm_num [calibTemp, initTempState])⟩

/- ### LTTB pipeline scenario (C2) -/

theorem lttbRun_append (cfg : LttbConfig) (l1 l2 : List (ℤ × ℚ)) :
    ∀ s, lttbRun cfg s (l1 ++ l2) =
      ((lttbRun cfg (lttbRun cfg s l1).1 l2).1,
       (lttbRun cfg s l1).2.1 ++ (lttbRun cfg (lttbRun cfg s l1).1 l2).2.1,
       (lttbRun cfg s l1).2.2 ++ (lttbRun cfg (lttbRun cfg s l1).1 l2).2.2) := by
  induction l1 with
  | nil => intro s; simp [lttbRun]
  | cons p rest ih =>
    intro s
    obtain ⟨e, t⟩ := p
    conv_lhs => rw [List.cons_append, lttbRun, ih]
    conv_rhs => rw [lttbRun]
    rfl

theorem process_ecg_lttb_noFire (cfg : LttbConfig) (e : ℤ) (t : ℚ)
    (s : LttbProcessingState) (hdyn : cfg.enable_dynamic_range = false)
    (hlen : s.raw_buffer.length + 1 < s.buffer_size) :
    process_ecg_lttb cfg e t s =
      ({ normalized := lttbNorm s e, compressed := s.compressed_buffer,
         fired := false, pushed := { x := t, y := lttbNorm s e } },
       { s with global_max := some (updGlobalMax s.global_max (e : ℚ)),
                global_min := some (updGlobalMin s.global_min (e : ℚ)),
                raw_buffer := s.raw_buffer ++ [{ x := t, y := lttbNorm s e }],
                sample_counter := s.sample_counter + 1 }) := by
  unfold process_ecg_lttb
  dsimp only
  have hc : ¬ ((cfg.enable_dynamic_range &&
      ((s.sample_counter + 1) % cfg.range_update_interval == 0)) = true) := by
    rw [hdyn]
    simp
  rw [if_neg hc]
  have hnf : ¬ ((s.raw_buffer ++
      [({ x := t, y := lttbNorm s e } : LttbDataPoint)]).length ≥
        s.buffer_size) := by
    simp only [List.length_append, List.length_cons, List.length_nil]
    omega
  rw [if_neg hnf]

theorem process_ecg_lttb_fire (cfg : LttbConfig) (e : ℤ) (t : ℚ)
    (s : LttbProcessingState) (hdyn : cfg.enable_dynamic_range = false)
    (hlen : s.raw_buffer.length + 1 ≥ s.buffer_size) :
    process_ecg_lttb cfg e t s =
      ({ normalized := lttbNorm s e,
         compressed := lttb_downsampleT
           (s.raw_buffer ++ [{ x := t, y := lttbNorm s e }])
           (s.buffer_size / s.compression_ratio),
         fired := true, pushed := { x := t, y := lttbNorm s e } },
       { s with global_max := some (updGlobalMax s.global_max (e : ℚ)),
                global_min := some (updGlobalMin s.global_min (e : ℚ)),
                raw_buffer := (s.raw_buffer ++
                  [({ x := t, y := lttbNorm s e } : LttbDataPoint)]).drop
                  ((s.raw_buffer ++
                    [({ x := t, y := lttbNorm s e } : LttbDataPoint)]).length -
                    s.buffer_size / 4),
                compressed_buffer := lttb_downsampleT
                  (s.raw_buffer ++ [{ x := t, y := lttbNorm s e }])
                  (s.buffer_size / s.compression_ratio),
                sample_counter := s.sample_counter + 1 }) := by
  unfold process_ecg_lttb
  dsimp only
  have hc : ¬ ((cfg.enable_dynamic_range &&
      ((s.sample_counter + 1) % cfg.range_update_interval == 0)) = true) := by
    rw [hdyn]
    simp
  rw [if_neg hc]
  have hf : (s.raw_buffer ++
      [({ x := t, y := lttbNorm s e } : LttbDataPoint)]).length ≥
        s.buffer_size := by
    simp only [List.length_append, List.length_cons, List.length_nil]
    omega
  rw [if_pos hf]

theorem lttbRun_noFire (cfg : LttbConfig)
    (hdyn : cfg.enable_dynamic_range = false) :
    ∀ (inputs : List (ℤ × ℚ)) (s : LttbProcessingState),
      s.raw_buffer.length + inputs.length < s.buffer_size →
      (lttbRun cfg s inputs).2.1 = List.replicate inputs.length false ∧
      (lttbRun cfg s inputs).2.2.length = inputs.length ∧
      (lttbRun cfg s inputs).1.raw_buffer =
        s.raw_buffer ++ (lttbRun cfg s inputs).2.2 ∧
      (lttbRun cfg s inputs).1.compressed_buffer = s.compressed_buffer ∧
      (lttbRun cfg s inputs).1.buffer_size = s.buffer_size ∧
      (lttbRun cfg s inputs).1.compression_ratio = s.compression_ratio
  | [], s, _ => by simp [lttbRun]
  | (e, t) :: rest, s, hlen => by
    simp only [List.length_cons] at hlen
    have hstep := process_ecg_lttb_noFire cfg e t s hdyn (by omega)
    rw [lttbRun, hstep]
    dsimp only
    obtain ⟨ih1, ih2, ih3, ih4, ih5, ih6⟩ := lttbRun_noFire cfg hdyn rest
      ({ s with global_max := some (updGlobalMax s.global_max (e : ℚ)),
                global_min := some (updGlobalMin s.global_min (e : ℚ)),
                raw_buffer := s.raw_buffer ++ [{ x := t, y := lttbNorm s e }],
                sample_counter := s.sample_counter + 1 } : LttbProcessingState)
      (by simp only [List.length_append, List.length_cons, List.length_nil]
          omega)
    refine ⟨?_, ?_, ?_, ?_, ?_, ?_⟩
    · rw [List.length_cons, List.replicate_succ, ih1]
    · simp only [List.length_cons]
      rw [ih2]
    · rw [ih3]
      dsimp only
      rw [List.append_assoc]
      rfl
    · rw [ih4]
    · rw [ih5]
    · rw [ih6]

theorem lttb_downsampleT_length (data : List LttbDataPoint) (T : ℕ)
    (h2 : 2 < T) (hT : T < data.length) :
    (lttb_downsampleT data T).length = T := by
  obtain ⟨l, hl, hlen, _, _⟩ := lttb_downsample_spec data T h2 hT
  rw [lttb_downsampleT, hl]
  exact hlen

/-- C2: from a fresh LTTB state with dynamic range disabled,
`buffer_size = 1000` and `compression_ratio = 10`, processing any 1000 ECG
samples fires the compression branch exactly once — on the 1000th sample —
leaving a compressed snapshot of exactly 100 points, and a raw buffer that
is exactly the most recent 250 of the 1000 pushed points. -/
theorem C2_lttb_pipeline (inputs : List (ℤ × ℚ))
    (hlen : inputs.length = 1000) :
    (lttbRun lttbCfgC2 (initLttbState lttbCfgC2) inputs).2.1 =
      List.replicate 999 false ++ [true] ∧
    (lttbRun lttbCfgC2 (initLttbState lttbCfgC2)
      inputs).1.compressed_buffer.length = 100 ∧
    (lttbRun lttbCfgC2 (initLttbState lttbCfgC2)
      inputs).1.raw_buffer.length = 250 ∧
    (lttbRun lttbCfgC2 (initLttbState lttbCfgC2) inputs).1.raw_buffer =
      (lttbRun lttbCfgC2 (initLttbState lttbCfgC2) inputs).2.2.drop 750 ∧
    (lttbRun lttbCfgC2 (initLttbState lttbCfgC2) inputs).2.2.length = 1000 := by
  obtain ⟨p, hp⟩ : ∃ p, inputs.drop 999 = [p] :=
    List.length_eq_one.mp (by rw [List.length_drop, hlen])
  obtain ⟨e, t⟩ := p
  have hsplit : inputs = inputs.take 999 ++ [(e, t)] := by
    conv_lhs => rw [← List.take_append_drop 999 inputs]
    rw [hp]
  have htk : (inputs.take 999).length = 999 := by
    rw [List.length_take, hlen]
    omega
  have hrun : lttbRun lttbCfgC2 (initLttbState lttbCfgC2) inputs =
      lttbRun lttbCfgC2 (initLttbState lttbCfgC2)
        (inputs.take 999 ++ [(e, t)]) := by
    rw [← hsplit]
  rw [hrun, lttbRun_append]
  set R := lttbRun lttbCfgC2 (initLttbState lttbCfgC2) (inputs.take 999)
    with hR
  obtain ⟨h1, h2, h3, h4, h5, h6⟩ :=
    lttbRun_noFire lttbCfgC2 rfl (inputs.take 999) (initLttbState lttbCfgC2)
      (by simp [initLttbState, lttbCfgC2, htk])
  rw [← hR] at h1 h2 h3 h4 h5 h6
  have hraw : R.1.raw_buffer = R.2.2 := by
    rw [h3]
    simp [initLttbState]
  have hrawlen : R.1.raw_buffer.length = 999 := by
    rw [hraw, h2, htk]
  have hbuf1000 : R.1.buffer_size = 1000 := by
    rw [h5]
    rfl
  have hcr10 : R.1.compression_ratio = 10 := by
    rw [h6]
    rfl
  have hfire := process_ecg_lttb_fire lttbCfgC2 e t R.1 rfl
    (by rw [hrawlen, hbuf1000])
  simp only [lttbRun, hfire]
  have hbuflen : (R.1.raw_buffer ++
      [({ x := t, y := lttbNorm R.1 e } : LttbDataPoint)]).length = 1000 := by
    simp only [List.length_append, List.length_cons, List.length_nil, hrawlen]
  have hdcomp : (lttb_downsampleT
      (R.1.raw_buffer ++ [({ x := t, y := lttbNorm R.1 e } : LttbDataPoint)])
      (R.1.buffer_size / R.1.compression_ratio)).length = 100 := by
    rw [hbuf1000, hcr10]
    rw [lttb_downsampleT_length _ _ (by norm_num) (by rw [hbuflen]; norm_num)]
  refine ⟨?_, ?_, ?_, ?_, ?_⟩
  · rw [h1, htk]
  · exact hdcomp
  · rw [List.length_drop, hbuflen, hbuf1000]
  · rw [hbuflen, hbuf1000, hraw]
  · simp only [List.length_append, List.length_cons, List.length_nil, h2, htk]

theorem C2_witness :
    (List.replicate 1000 ((0 : ℤ), (0 : ℚ))).length = 1000 ∧
    ((lttbRun lttbCfgC2 (initLttbState lttbCfgC2)
        (List.replicate 1000 ((0 : ℤ), (0 : ℚ)))).2.1 =
      List.replicate 999 false ++ [true] ∧
    (lttbRun lttbCfgC2 (initLttbState lttbCfgC2)
      (List.replicate 1000 ((0 : ℤ), (0 : ℚ)))).1.compressed_buffer.length = 100 ∧
    (lttbRun lttbCfgC2 (initLttbState lttbCfgC2)
      (List.replicate 1000 ((0 : ℤ), (0 : ℚ)))).1.raw_buffer.length = 250 ∧
    (lttbRun lttbCfgC2 (initLttbState lttbCfgC2)
        (List.replicate 1000 ((0 : ℤ), (0 : ℚ)))).1.raw_buffer =
      (lttbRun lttbCfgC2 (initLttbState lttbCfgC2)
        (List.replicate 1000 ((0 : ℤ), (0 : ℚ)))).2.2.drop 750 ∧
    (lttbRun lttbCfgC2 (initLttbState lttbCfgC2)
      (List.replicate 1000 ((0 : ℤ), (0 : ℚ)))).2.2.length = 1000) :=
  ⟨by rw [List.length_replicate],
   C2_lttb_pipeline (List.replicate 1000 ((0 : ℤ), (0 : ℚ)))
     (by rw [List.length_replicate])⟩
